import Mathlib

/-!
Shallow embedding of src/esphomeyaml/yaml_util.py: the directive-resolution /
recursive-inclusion engine (load_yaml and the tag handlers registered on
ExtRoundTripConstructor) and the value-aware serializer (dump and the
representers registered on ExtRoundTripRepresenter).

Modelling conventions:
* Paths are strings whose components are separated by a slash, as produced by
  os.path.join on POSIX.  dirname, basename and splitext mirror the os.path
  functions on such strings.
* The filesystem is a finite association list from component lists to file
  documents.  A document is either a successfully parsed raw node tree (the
  output of the external base parser, in which custom directives appear as
  unresolved tag nodes) or a syntactically malformed document.
* The external base parser and the Python runtime are not code of this
  repository; where their behavior decides a branch it is modelled explicitly
  and the definition says so in its doc comment.
* ExtRoundTripConstructor.name is a class attribute that load_yaml assigns
  only when it is not yet set; it is modelled as an Option String threaded
  through load_yaml, matching the set-once global attribute of the source.
* Recursion through includes has no cycle detection in the source, so the
  interpreter takes a fuel argument and reports exhaustion as a distinct
  error value (Err.fuel) that no real execution of the source produces in a
  terminating run.
-/

namespace Esphome

/-- Splits a list of characters at every slash; structural worker for
splitPath. -/
def splitCompsAux (cur : List Char) : List Char → List (List Char)
  | [] => [cur.reverse]
  | c :: rest =>
    if c == '/' then cur.reverse :: splitCompsAux [] rest
    else splitCompsAux (c :: cur) rest

/-- Path string to its slash-separated components. -/
def splitPath (s : String) : List String :=
  (splitCompsAux [] s.toList).map (fun l => String.mk l)

/-- Joins components with slashes; inverse of splitPath on normalized paths. -/
def joinComps : List String → String
  | [] => ""
  | [c] => c
  | c :: rest => c ++ "/" ++ joinComps rest

/-- Model of os.path.dirname on slash-separated relative paths. -/
def dirname (p : String) : String :=
  joinComps (splitPath p).dropLast

/-- Model of os.path.basename on slash-separated relative paths. -/
def basename (p : String) : String :=
  ((splitPath p).getLastD "")

/-- Model of os.path.join for the calls the source makes: the second argument
is a relative path, and joining with the empty directory returns the second
argument unchanged. -/
def joinPath (a b : String) : String :=
  if a == "" then b else a ++ "/" ++ b

/-- Model of the root part of os.path.splitext: drops the final dot-suffix of
a name, keeping names whose only dot is the leading character (hidden names
never reach this function because directory scans filter them out first). -/
def splitextRoot (s : String) : String :=
  let cs := s.toList
  match (cs.reverse).findIdx? (fun c => c == '.') with
  | none => s
  | some i =>
    let rootLen := cs.length - 1 - i
    if rootLen == 0 then s else String.mk (cs.take rootLen)

/-- _is_file_valid from the source: a name is valid when it does not start
with a dot. -/
def is_file_valid (nm : String) : Bool :=
  match nm.toList with
  | [] => true
  | c :: _ => !(c == '.')

/-- Model of fnmatch.fnmatch restricted to the pattern shapes the source
passes (both call sites pass the literal pattern star-dot-yaml, a single
leading star followed by a literal suffix); matching is case sensitive as on
POSIX. -/
def fnmatchStar (pattern nm : String) : Bool :=
  match pattern.toList with
  | '*' :: suf => suf.reverse.isPrefixOf nm.toList.reverse
  | _ => pattern == nm

/-- SECRET_YAML from the source. -/
def SECRET_YAML : String := "secrets.yaml"

/-- The closed set of directive tags registered on ExtRoundTripConstructor by
the add_constructor calls at the bottom of the source file. -/
inductive Directive where
  | dEnvVar
  | dSecret
  | dInclude
  | dIncludeDirList
  | dIncludeDirMergeList
  | dIncludeDirNamed
  | dIncludeDirMergeNamed
  | dLambda
deriving DecidableEq

/-- Unresolved node tree as the external base parser hands it to the
constructor: plain structure plus directive tag nodes carrying their scalar
payload text.  Mapping keys are restricted to strings, which covers every
document the claims mention. -/
inductive RawNode where
  | rnull
  | rbool (b : Bool)
  | rint (n : Int)
  | rstr (s : String)
  | rmap (entries : List (String × RawNode))
  | rseq (items : List RawNode)
  | rtag (d : Directive) (payload : String)

/-- Resolved value tree: ordered mappings, sequences, scalars, and the inline
code scalar produced by the lambda directive. -/
inductive YVal where
  | vnull
  | vbool (b : Bool)
  | vint (n : Int)
  | vstr (s : String)
  | vmap (entries : List (String × YVal))
  | vseq (items : List YVal)
  | vlambda (code : String)

/-- Model of Python truthiness on resolved values, deciding the
`yaml.load(conf_file) or OrderedDict()` expression in load_yaml: None, False,
zero, the empty string and empty collections are falsy; a Lambda object is
truthy. -/
def truthy : YVal → Bool
  | .vnull => false
  | .vbool b => b
  | .vint n => !(n == 0)
  | .vstr s => !(s == "")
  | .vmap es => !(es.isEmpty)
  | .vseq xs => !(xs.isEmpty)
  | .vlambda _ => true

/-- One stored file: either the raw node tree the base parser produces for
it, or a marker that its text is syntactically malformed in the base
grammar. -/
inductive FileDoc where
  | parsed (raw : RawNode)
  | malformed

/-- The filesystem: a finite association list from path components to file
documents.  Directory-scan order is modelled as the order in which paths
appear in this list, since the source imposes no ordering on os.walk. -/
abbrev FS := List (List String × FileDoc)

/-- The read-only context of a load: the filesystem and the OS environment
(for the env_var directive). -/
structure Ctx where
  fs : FS
  env : List (String × String)

/-- Errors.  The source raises EsphomeyamlError with a message for every
failure (IO, parse, undefined secret, undefined environment variable); the
fuel constructor marks exhaustion of the interpreter fuel, which corresponds
to a non-terminating include chain in the source. -/
inductive Err where
  | e (msg : String)
  | fuel

/-- Modelled from the spec: the external base parser reports syntax errors
with a mark naming the input stream, and load_yaml opens the stream on the
offending file, so the message of the YAMLError that load_yaml wraps into
EsphomeyamlError carries the file path. -/
def parseErrMsg (fname : String) : String :=
  "while parsing a block mapping in \"" ++ fname ++ "\", line 1, column 1: expected <block end>"

/-- Message of the EsphomeyamlError raised on an unreadable file, from the
format string in load_yaml. -/
def ioErrMsg (fname : String) : String :=
  "Error accessing file " ++ fname ++ ": No such file or directory"

/-- Message of the EsphomeyamlError raised by _secret_yaml on a missing
key. -/
def undefinedSecretMsg (key : String) : String :=
  "Secret " ++ key ++ " not defined"

/-- Message of the EsphomeyamlError raised by _env_var_yaml on an unset
variable. -/
def undefinedVarMsg (var : String) : String :=
  "Environment variable " ++ var ++ " not defined."

/-- Looks a path up in the filesystem. -/
def lookupFile (fs : FS) (fname : String) : Option FileDoc :=
  (fs.find? (fun e => e.1 == splitPath fname)).map (fun e => e.2)

/-- Decides whether a stored path is yielded by the recursive scan of
_find_files over `dcomps`: the path lies strictly below the directory, no
intermediate directory name is hidden (os.walk prunes hidden directories
before descending), and the final name is not hidden and matches the
pattern. -/
def scanHit (dcomps : List String) (pattern : String) (p : List String) : Bool :=
  dcomps.isPrefixOf p
  && decide (dcomps.length < p.length)
  && (let rest := p.drop dcomps.length
      rest.dropLast.all is_file_valid
      && is_file_valid (rest.getLastD "")
      && fnmatchStar pattern (rest.getLastD ""))

/-- _find_files from the source: recursively enumerates the files below a
directory, pruning hidden names and filtering by the glob pattern; a missing
directory yields nothing, exactly as os.walk does.  The enumeration order is
the filesystem list order (the source guarantees no order). -/
def find_files (fs : FS) (directory pattern : String) : List String :=
  let dcomps := splitPath directory
  fs.filterMap (fun e => if scanHit dcomps pattern e.1 then some (joinComps e.1) else none)

/-- Inserts or replaces one binding the way item assignment on an OrderedDict
does: an existing key keeps its position and gets the new value, a new key is
appended at the end. -/
def odSet : List (String × YVal) → String → YVal → List (String × YVal)
  | [], k, v => [(k, v)]
  | p :: rest, k, v => if p.1 == k then (k, v) :: rest else p :: odSet rest k v

/-- OrderedDict.update with another mapping: assigns every pair in order. -/
def odUpdate (acc : List (String × YVal)) (es : List (String × YVal)) : List (String × YVal) :=
  es.foldl (fun a p => odSet a p.1 p.2) acc

/-- Key lookup in an ordered mapping. -/
def odLookup (acc : List (String × YVal)) (k : String) : Option YVal :=
  (acc.find? (fun p => p.1 == k)).map (fun p => p.2)

/-- Requests of the interpreter: a load_yaml call (with the value of the
constructor name attribute in force), the resolution of one raw node, the
resolution of mapping entries and sequence items, and the four directory
handler loops with their accumulators. -/
inductive Req where
  | load (name fname : String)
  | res (name : String) (raw : RawNode)
  | resEntries (name : String) (es : List (String × RawNode)) (acc : List (String × YVal))
  | resItems (name : String) (xs : List RawNode) (acc : List YVal)
  | dirNamed (name : String) (files : List String) (acc : List (String × YVal))
  | mergeNamed (name : String) (files : List String) (acc : List (String × YVal))
  | dirList (name : String) (files : List String) (acc : List YVal)
  | mergeList (name : String) (files : List String) (acc : List YVal)

/-- The interpreter.  Each arm is a direct transcription of one source
function: load covers the body of load_yaml after the name attribute has been
handled; res dispatches a node, with the rtag arm transcribing the handler
registered for each directive; the loop arms transcribe the for loops of the
directory handlers, where a for loop with a continue for the secrets file is
embedded by first discarding the skipped prefix of the remaining file list.
Fuel decreases on every recursive step.  When the loaded secrets document is
not a mapping, the membership test of the host language is approximated by a
single host-level type error; no claim exercises that branch. -/
def run (ctx : Ctx) : Nat → Req → Except Err YVal
  | 0, _ => .error .fuel
  | fuel + 1, .load name fname =>
    match lookupFile ctx.fs fname with
    | none => .error (.e (ioErrMsg fname))
    | some .malformed => .error (.e (parseErrMsg fname))
    | some (.parsed raw) =>
      match run ctx fuel (.res name raw) with
      | .error er => .error er
      | .ok v => .ok (if truthy v then v else .vmap [])
  | fuel + 1, .res name raw =>
    match raw with
    | .rnull => .ok .vnull
    | .rbool b => .ok (.vbool b)
    | .rint n => .ok (.vint n)
    | .rstr s => .ok (.vstr s)
    | .rmap es => run ctx fuel (.resEntries name es [])
    | .rseq xs => run ctx fuel (.resItems name xs [])
    | .rtag d payload =>
      match d with
      | .dEnvVar =>
        match ctx.env.lookup payload with
        | none => .error (.e (undefinedVarMsg payload))
        | some v => .ok (.vstr v)
      | .dSecret =>
        match run ctx fuel (.load name (joinPath (dirname name) SECRET_YAML)) with
        | .error er => .error er
        | .ok (.vmap es) =>
          match odLookup es payload with
          | none => .error (.e (undefinedSecretMsg payload))
          | some v => .ok v
        | .ok _ => .error (.e "TypeError: argument of type is not iterable")
      | .dInclude => run ctx fuel (.load name (joinPath (dirname name) payload))
      | .dIncludeDirNamed =>
        run ctx fuel (.dirNamed name (find_files ctx.fs (joinPath (dirname name) payload) "*.yaml") [])
      | .dIncludeDirMergeNamed =>
        run ctx fuel (.mergeNamed name (find_files ctx.fs (joinPath (dirname name) payload) "*.yaml") [])
      | .dIncludeDirList =>
        run ctx fuel (.dirList name (find_files ctx.fs (joinPath (dirname name) payload) "*.yaml") [])
      | .dIncludeDirMergeList =>
        run ctx fuel (.mergeList name (find_files ctx.fs (joinPath (dirname name) payload) "*.yaml") [])
      | .dLambda => .ok (.vlambda payload)
  | fuel + 1, .resEntries name es acc =>
    match es with
    | [] => .ok (.vmap acc)
    | (k, v) :: rest =>
      match run ctx fuel (.res name v) with
      | .error er => .error er
      | .ok rv => run ctx fuel (.resEntries name rest (acc ++ [(k, rv)]))
  | fuel + 1, .resItems name xs acc =>
    match xs with
    | [] => .ok (.vseq acc)
    | v :: rest =>
      match run ctx fuel (.res name v) with
      | .error er => .error er
      | .ok rv => run ctx fuel (.resItems name rest (acc ++ [rv]))
  | fuel + 1, .dirNamed name files acc =>
    match files with
    | [] => .ok (.vmap acc)
    | f :: rest =>
      match run ctx fuel (.load name f) with
      | .error er => .error er
      | .ok v => run ctx fuel (.dirNamed name rest (odSet acc (splitextRoot (basename f)) v))
  | fuel + 1, .mergeNamed name files acc =>
    match files.dropWhile (fun f => basename f == SECRET_YAML) with
    | [] => .ok (.vmap acc)
    | f :: rest =>
      match run ctx fuel (.load name f) with
      | .error er => .error er
      | .ok (.vmap es) => run ctx fuel (.mergeNamed name rest (odUpdate acc es))
      | .ok _ => run ctx fuel (.mergeNamed name rest acc)
  | fuel + 1, .dirList name files acc =>
    match files.dropWhile (fun f => basename f == SECRET_YAML) with
    | [] => .ok (.vseq acc)
    | f :: rest =>
      match run ctx fuel (.load name f) with
      | .error er => .error er
      | .ok v => run ctx fuel (.dirList name rest (acc ++ [v]))
  | fuel + 1, .mergeList name files acc =>
    match files.dropWhile (fun f => basename f == SECRET_YAML) with
    | [] => .ok (.vseq acc)
    | f :: rest =>
      match run ctx fuel (.load name f) with
      | .error er => .error er
      | .ok (.vseq xs) => run ctx fuel (.mergeList name rest (acc ++ xs))
      | .ok _ => run ctx fuel (.mergeList name rest acc)

/-- Sequential loads of a list of files at the fuel discipline of the
interpreter loops, aborting at the first error; used to state what the
directory merge handler computes. -/
def specLoadSeq (ctx : Ctx) : Nat → String → List String → Except Err (List YVal)
  | 0, _, _ => .error .fuel
  | _ + 1, _, [] => .ok []
  | fuel + 1, name, f :: rest =>
    match run ctx fuel (.load name f) with
    | .error er => .error er
    | .ok v =>
      match specLoadSeq ctx fuel name rest with
      | .error er => .error er
      | .ok vs => .ok (v :: vs)

/-- The entries of a value when it is a mapping (isinstance(x, dict)). -/
def asMapEntries : YVal → Option (List (String × YVal))
  | .vmap es => some es
  | _ => none

/-- Follows the claim wording for the merge-named directive: take the scanned
files with the secrets file removed, load each in scan order (aborting at the
first failure), keep the results that are mappings, and combine their entries
into one mapping by assigning them in order. -/
def mergeNamedSpec (ctx : Ctx) (fuel : Nat) (name : String) (files : List String) :
    Except Err YVal :=
  match specLoadSeq ctx fuel name (files.filter (fun f => !(basename f == SECRET_YAML))) with
  | .error er => .error er
  | .ok vs => .ok (.vmap (((vs.filterMap asMapEntries)).foldl odUpdate []))

/-- The value of the last binding of a key in a list of entries: later
bindings overwrite earlier ones. -/
def lastVal (ps : List (String × YVal)) (k : String) : Option YVal :=
  ps.foldl (fun r p => if p.1 == k then some p.2 else r) none

/-- The value the name attribute has during a load_yaml call: load_yaml
assigns the attribute only when it is not yet set, so an already present
value wins over the fresh file name. -/
def stName : Option String → String → String
  | none, fname => fname
  | some n, _ => n

/-- load_yaml from the source: performs the set-once assignment of the
constructor name class attribute and then loads and resolves the file,
returning the new attribute state together with the result. -/
def load_yaml (ctx : Ctx) (fuel : Nat) (st : Option String) (fname : String) :
    Option String × Except Err YVal :=
  (some (stName st fname), run ctx fuel (.load (stName st fname) fname))

/-- A run of spaces for block indentation. -/
def spaces (n : Nat) : String :=
  String.mk (List.replicate n ' ')

/-- The text of a scalar leaf under the representers the source installs on
ExtRoundTripRepresenter; the round-trip representer of the external base
serializer renders the null value as empty text (which is why the source
docstring speaks of removing null), booleans and integers as their literal
text, and plain strings verbatim. -/
def scalarText : YVal → Option String
  | .vnull => some ""
  | .vbool b => some (if b then "true" else "false")
  | .vint n => some (toString n)
  | .vstr s => some s
  | _ => none

/-- Whether a value is a scalar leaf for the serializer. -/
def isScalarVal (v : YVal) : Bool :=
  (scalarText v).isSome

/-- The single output line of a mapping entry whose value is a scalar: the
key, a colon, and the scalar text.  A null value leaves the line at the bare
key and colon, so the entry is visible in the output even though the word
null is not. -/
def scalarEntryLine (ind : Nat) (k : String) : YVal → String
  | .vnull => spaces ind ++ k ++ ":"
  | .vbool b => spaces ind ++ k ++ ": " ++ (if b then "true" else "false")
  | .vint n => spaces ind ++ k ++ ": " ++ toString n
  | .vstr s => spaces ind ++ k ++ ": " ++ s
  | _ => ""

/-- Modelled from the spec: the block rendering of the external base
serializer (the round-trip dumper of the base markup library, which is not
code of this repository), restricted to the layout fragment the claims
exercise, with the representer overrides the source installs.  Mappings and
sequences render one entry or item per line, nested structure indents by two,
the lambda scalar renders as a tagged block literal, and no entry of the tree
is dropped. -/
def blockLines (ind : Nat) : YVal → List String
  | .vnull => [spaces ind]
  | .vbool b => [spaces ind ++ (if b then "true" else "false")]
  | .vint n => [spaces ind ++ toString n]
  | .vstr s => [spaces ind ++ s]
  | .vlambda c => (spaces ind ++ "!lambda |-") :: (c.splitOn "\n").map (fun l => spaces (ind + 2) ++ l)
  | .vmap [] => [spaces ind ++ "\x7b\x7d"]
  | .vmap ((k, v) :: rest) =>
    (match v with
     | .vnull => [spaces ind ++ k ++ ":"]
     | .vbool b => [spaces ind ++ k ++ ": " ++ (if b then "true" else "false")]
     | .vint n => [spaces ind ++ k ++ ": " ++ toString n]
     | .vstr s => [spaces ind ++ k ++ ": " ++ s]
     | .vlambda c =>
       (spaces ind ++ k ++ ": !lambda |-") :: (c.splitOn "\n").map (fun l => spaces (ind + 2) ++ l)
     | .vmap [] => [spaces ind ++ k ++ ": \x7b\x7d"]
     | .vseq [] => [spaces ind ++ k ++ ": []"]
     | .vmap (e :: es) => (spaces ind ++ k ++ ":") :: blockLines (ind + 2) (.vmap (e :: es))
     | .vseq (x :: xs) => (spaces ind ++ k ++ ":") :: blockLines ind (.vseq (x :: xs)))
    ++ (match rest with
        | [] => []
        | r :: rs => blockLines ind (.vmap (r :: rs)))
  | .vseq [] => [spaces ind ++ "[]"]
  | .vseq (v :: rest) =>
    (match v with
     | .vnull => [spaces ind ++ "-"]
     | .vbool b => [spaces ind ++ "- " ++ (if b then "true" else "false")]
     | .vint n => [spaces ind ++ "- " ++ toString n]
     | .vstr s => [spaces ind ++ "- " ++ s]
     | .vlambda c =>
       (spaces ind ++ "- !lambda |-") :: (c.splitOn "\n").map (fun l => spaces (ind + 2) ++ l)
     | .vmap [] => [spaces ind ++ "- \x7b\x7d"]
     | .vseq [] => [spaces ind ++ "- []"]
     | .vmap (e :: es) => (spaces ind ++ "-") :: blockLines (ind + 2) (.vmap (e :: es))
     | .vseq (x :: xs) => (spaces ind ++ "-") :: blockLines (ind + 2) (.vseq (x :: xs)))
    ++ (match rest with
        | [] => []
        | r :: rs => blockLines ind (.vseq (r :: rs)))

/-- dump from the source: renders the tree through the base serializer with
the representer overrides installed; it adds no filtering of its own, so the
output is the line rendering of the whole tree, one trailing newline per
line. -/
def dump (v : YVal) : String :=
  String.join ((blockLines 0 v).map (fun l => l ++ "\n"))

/-- Modelled from the spec: the duration scalar type (TimePeriod in the core
module, which is not under src/) carries an optional magnitude for each of
the six units. -/
structure TimePeriod where
  microseconds : Option Int := none
  milliseconds : Option Int := none
  seconds : Option Int := none
  minutes : Option Int := none
  hours : Option Int := none
  days : Option Int := none

/-- Modelled from the spec: as_dict on a duration returns the unit-to-
magnitude mapping of exactly the units that are set, in the fixed unit
order. -/
def TimePeriod.as_dict (t : TimePeriod) : List (String × Int) :=
  ([("microseconds", t.microseconds), ("milliseconds", t.milliseconds),
    ("seconds", t.seconds), ("minutes", t.minutes),
    ("hours", t.hours), ("days", t.days)]).filterMap
    (fun p => p.2.map (fun v => (p.1, v)))

/-- TIME_PERIOD_UNIT_MAP from the source. -/
def TIME_PERIOD_UNIT_MAP : List (String × String) :=
  [("microseconds", "us"), ("milliseconds", "ms"), ("seconds", "s"),
   ("minutes", "min"), ("hours", "h"), ("days", "d")]

/-- What a representer returns for a duration: either a plain string scalar
or the explicit unit-to-magnitude mapping. -/
inductive RepNode where
  | rstr (s : String)
  | rmap (entries : List (String × Int))
deriving DecidableEq

/-- represent_time_period from the source: a one-entry as_dict renders as the
magnitude followed by the unit abbreviation, anything else as the explicit
mapping. -/
def represent_time_period (data : TimePeriod) : RepNode :=
  let dictionary := data.as_dict
  match dictionary with
  | [(u, v)] => .rstr (toString v ++ ((TIME_PERIOD_UNIT_MAP.lookup u).getD ""))
  | _ => .rmap dictionary

/-- The unit abbreviation table exactly as the claim states it. -/
def claimAbbrev : String → String
  | "microseconds" => "us"
  | "milliseconds" => "ms"
  | "seconds" => "s"
  | "minutes" => "min"
  | "hours" => "h"
  | "days" => "d"
  | _ => ""

/-- Fixture for the nested-include chain of C1: A/root.yaml includes
sub/b.yaml, which includes c.yaml; a c.yaml exists both in A and in A/sub
with distinct contents, so the resolution directory is observable. -/
def ctxC1 : Ctx :=
  ⟨[ (["A", "root.yaml"], .parsed (.rtag .dInclude "sub/b.yaml"))
   , (["A", "c.yaml"], .parsed (.rmap [("k", .rint 2)]))
   , (["A", "sub", "b.yaml"], .parsed (.rtag .dInclude "c.yaml"))
   , (["A", "sub", "c.yaml"], .parsed (.rmap [("k", .rint 1)])) ], []⟩

/-- Fixture for the sequential-loads scenario of C2: two independent root
files in different directories, each directory holding its own inc.yaml with
distinct contents. -/
def ctxC2 : Ctx :=
  ⟨[ (["A", "first.yaml"], .parsed (.rmap [("w", .rint 0)]))
   , (["A", "inc.yaml"], .parsed (.rmap [("v", .rint 1)]))
   , (["B", "second.yaml"], .parsed (.rtag .dInclude "inc.yaml"))
   , (["B", "inc.yaml"], .parsed (.rmap [("v", .rint 2)])) ], []⟩

/-- Fixture for C3: a scanned directory D holding an ordinary document and a
secrets.yaml. -/
def ctxC3 : Ctx :=
  ⟨[ (["root.yaml"], .parsed .rnull)
   , (["D", "a.yaml"], .parsed (.rmap [("x", .rint 2)]))
   , (["D", "secrets.yaml"], .parsed (.rmap [("s", .rint 1)])) ], []⟩

/-- Fixture for C5: a single syntactically malformed file. -/
def ctxC5 : Ctx := ⟨[(["bad.yaml"], .malformed)], []⟩

/-- Fixture for C7: a directory A with a secrets file binding foo. -/
def ctxC7 : Ctx :=
  ⟨[(["A", "secrets.yaml"], .parsed (.rmap [("foo", .rstr "bar")]))], []⟩

/-- Fixture for C8: an empty document, which the base parser reads as the
null value. -/
def ctxC8 : Ctx := ⟨[(["empty.yaml"], .parsed .rnull)], []⟩

/-- Fixture for C10: documents whose sole content is the scalar false and the
scalar zero. -/
def ctxC10 : Ctx :=
  ⟨[ (["f.yaml"], .parsed (.rbool false))
   , (["z.yaml"], .parsed (.rint 0)) ], []⟩

/-- When skipping every leading secrets file leaves nothing, the secrets
filter leaves nothing either. -/
theorem secrets_filter_of_dropWhile_nil (l : List String)
    (h : l.dropWhile (fun g => basename g == SECRET_YAML) = []) :
    l.filter (fun g => !(basename g == SECRET_YAML)) = [] := by
  induction l with
  | nil => rfl
  | cons a l ih =>
    rw [List.dropWhile_cons] at h
    by_cases ha : (basename a == SECRET_YAML) = true
    · simp only [ha, if_true] at h
      simpa [List.filter_cons, ha] using ih h
    · simp only [ha, if_false] at h
      exact absurd h (by simp)

/-- Skipping the leading secrets files commutes with the secrets filter: the
first survivor is the first filtered element and is itself not a secrets
file. -/
theorem secrets_filter_of_dropWhile_cons (l : List String) (f : String)
    (rest : List String)
    (h : l.dropWhile (fun g => basename g == SECRET_YAML) = f :: rest) :
    l.filter (fun g => !(basename g == SECRET_YAML))
      = f :: rest.filter (fun g => !(basename g == SECRET_YAML))
    ∧ (basename f == SECRET_YAML) = false := by
  induction l with
  | nil => simp at h
  | cons a l ih =>
    rw [List.dropWhile_cons] at h
    by_cases ha : (basename a == SECRET_YAML) = true
    · simp only [ha, if_true] at h
      simpa [List.filter_cons, ha] using ih h
    · simp only [ha, if_false] at h
      obtain ⟨rfl, rfl⟩ : a = f ∧ l = rest := by
        constructor <;> [exact (List.cons.injEq ..▸ h).1; exact (List.cons.injEq ..▸ h).2]
      constructor
      · simp [List.filter_cons, ha]
      · simpa using ha

/-- The merge-named loop never loads a secrets file: it computes the same
result on the scan list with every secrets entry removed. -/
theorem mergeNamed_ignores_secrets (ctx : Ctx) :
    ∀ (fuel : Nat) (name : String) (files : List String)
      (acc : List (String × YVal)),
    run ctx fuel (.mergeNamed name files acc)
      = run ctx fuel
          (.mergeNamed name (files.filter (fun g => !(basename g == SECRET_YAML))) acc) := by
  intro fuel
  induction fuel with
  | zero => intro name files acc; rfl
  | succ fuel ih =>
    intro name files acc
    cases hdw : files.dropWhile (fun g => basename g == SECRET_YAML) with
    | nil =>
      have hf := secrets_filter_of_dropWhile_nil files hdw
      simp only [run, hdw, hf, List.dropWhile_nil]
    | cons f rest =>
      obtain ⟨hf, hQf⟩ := secrets_filter_of_dropWhile_cons files f rest hdw
      simp only [run, hdw, hf, List.dropWhile_cons, hQf, Bool.false_eq_true, if_false]
      cases hl : run ctx fuel (.load name f) with
      | error er => rfl
      | ok v => cases v <;> exact ih name rest _

/-- The list-inclusion loop never loads a secrets file. -/
theorem dirList_ignores_secrets (ctx : Ctx) :
    ∀ (fuel : Nat) (name : String) (files : List String) (acc : List YVal),
    run ctx fuel (.dirList name files acc)
      = run ctx fuel
          (.dirList name (files.filter (fun g => !(basename g == SECRET_YAML))) acc) := by
  intro fuel
  induction fuel with
  | zero => intro name files acc; rfl
  | succ fuel ih =>
    intro name files acc
    cases hdw : files.dropWhile (fun g => basename g == SECRET_YAML) with
    | nil =>
      have hf := secrets_filter_of_dropWhile_nil files hdw
      simp only [run, hdw, hf, List.dropWhile_nil]
    | cons f rest =>
      obtain ⟨hf, hQf⟩ := secrets_filter_of_dropWhile_cons files f rest hdw
      simp only [run, hdw, hf, List.dropWhile_cons, hQf, Bool.false_eq_true, if_false]
      cases hl : run ctx fuel (.load name f) with
      | error er => rfl
      | ok v => exact ih name rest _

/-- The merge-list loop never loads a secrets file. -/
theorem mergeList_ignores_secrets (ctx : Ctx) :
    ∀ (fuel : Nat) (name : String) (files : List String) (acc : List YVal),
    run ctx fuel (.mergeList name files acc)
      = run ctx fuel
          (.mergeList name (files.filter (fun g => !(basename g == SECRET_YAML))) acc) := by
  intro fuel
  induction fuel with
  | zero => intro name files acc; rfl
  | succ fuel ih =>
    intro name files acc
    cases hdw : files.dropWhile (fun g => basename g == SECRET_YAML) with
    | nil =>
      have hf := secrets_filter_of_dropWhile_nil files hdw
      simp only [run, hdw, hf, List.dropWhile_nil]
    | cons f rest =>
      obtain ⟨hf, hQf⟩ := secrets_filter_of_dropWhile_cons files f rest hdw
      simp only [run, hdw, hf, List.dropWhile_cons, hQf, Bool.false_eq_true, if_false]
      cases hl : run ctx fuel (.load name f) with
      | error er => rfl
      | ok v => cases v <;> exact ih name rest _

/-- C3 counterexample: the named-inclusion directive (include_dir_named) over
a directory holding secrets.yaml does include the loaded contents of the
secrets file in its result, under the key secrets, so the claim is false for
that directive. -/
theorem C3_counterexample_dir_named_includes_secrets :
    run ctxC3 10 (.res "root.yaml" (.rtag .dIncludeDirNamed "D"))
      = .ok (.vmap [("a", .vmap [("x", .vint 2)]), ("secrets", .vmap [("s", .vint 1)])])
    ∧ odLookup [("a", .vmap [("x", .vint 2)]), ("secrets", .vmap [("s", .vint 1)])] "secrets"
      = some (.vmap [("s", .vint 1)]) :=
  ⟨rfl, rfl⟩

/-- C3 amended: of the four directory-scan directives, the three that the
source filters (include_dir_merge_named, include_dir_list,
include_dir_merge_list) never load a scanned secrets.yaml: their loops
compute the same result when every path whose base name is secrets.yaml is
removed from the scan list, so the contents of a scanned secrets file cannot
reach their results.  include_dir_named performs no such filtering (see the
counterexample). -/
theorem C3_amended_three_directives_exclude_secrets (ctx : Ctx) (fuel : Nat)
    (name : String) (files : List String) (accm : List (String × YVal))
    (accl : List YVal) (accs : List YVal) :
    run ctx fuel (.mergeNamed name files accm)
      = run ctx fuel
          (.mergeNamed name (files.filter (fun g => !(basename g == SECRET_YAML))) accm)
    ∧ run ctx fuel (.dirList name files accl)
      = run ctx fuel
          (.dirList name (files.filter (fun g => !(basename g == SECRET_YAML))) accl)
    ∧ run ctx fuel (.mergeList name files accs)
      = run ctx fuel
          (.mergeList name (files.filter (fun g => !(basename g == SECRET_YAML))) accs) :=
  ⟨mergeNamed_ignores_secrets ctx fuel name files accm,
   dirList_ignores_secrets ctx fuel name files accl,
   mergeList_ignores_secrets ctx fuel name files accs⟩

/-- A nonempty mapping of scalar-valued entries renders one line per entry in
order, each entry by its scalar entry line; nothing is dropped. -/
theorem blockLines_scalar_map : ∀ (k : String) (v : YVal)
    (rest : List (String × YVal)),
    isScalarVal v = true → (∀ p ∈ rest, isScalarVal p.2 = true) →
    blockLines 0 (.vmap ((k, v) :: rest))
      = scalarEntryLine 0 k v :: rest.map (fun p => scalarEntryLine 0 p.1 p.2) := by
  intro k v rest
  induction rest generalizing k v with
  | nil =>
    intro hv _
    cases v with
    | vnull => simp [blockLines, scalarEntryLine]
    | vbool b => simp [blockLines, scalarEntryLine]
    | vint n => simp [blockLines, scalarEntryLine]
    | vstr s => simp [blockLines, scalarEntryLine]
    | vmap es => simp [isScalarVal, scalarText] at hv
    | vseq xs => simp [isScalarVal, scalarText] at hv
    | vlambda c => simp [isScalarVal, scalarText] at hv
  | cons q qs ih =>
    intro hv hq
    have hq1 : isScalarVal q.2 = true := hq q (List.mem_cons_self _ _)
    have ihq := ih q.1 q.2 hq1 (fun p hp => hq p (List.mem_cons_of_mem _ hp))
    cases v with
    | vnull => simpa [blockLines, scalarEntryLine] using ihq
    | vbool b => simpa [blockLines, scalarEntryLine] using ihq
    | vint n => simpa [blockLines, scalarEntryLine] using ihq
    | vstr s => simpa [blockLines, scalarEntryLine] using ihq
    | vmap es => simp [isScalarVal, scalarText] at hv
    | vseq xs => simp [isScalarVal, scalarText] at hv
    | vlambda c => simp [isScalarVal, scalarText] at hv

/-- C4 counterexample: serializing a mapping with a single null-valued entry
does not omit the entry: the output names the key (with an empty value),
differs from the serialization of the empty mapping, and therefore contains a
null-valued entry of the tree. -/
theorem C4_counterexample_null_entry_not_omitted :
    dump (.vmap [("a", .vnull)]) = "a:\n"
    ∧ dump (.vmap []) = "\x7b\x7d\n"
    ∧ dump (.vmap [("a", .vnull)]) ≠ dump (.vmap []) := by
  have e1 : dump (.vmap [("a", .vnull)]) = "a:\n" := by
    simp [dump, blockLines, spaces]; rfl
  have e2 : dump (.vmap []) = "\x7b\x7d\n" := by
    simp [dump, blockLines, spaces]; rfl
  exact ⟨e1, e2, by rw [e1, e2]; decide⟩

/-- C4 amended: dump omits no entry; every entry of a nonempty scalar-valued
mapping, null-valued entries included, produces exactly one output line, with
a null value rendered as the bare key and colon (the textual word null is
what is omitted, not the entry). -/
theorem C4_amended_null_entries_rendered (es : List (String × YVal))
    (hne : es ≠ []) (hs : ∀ p ∈ es, isScalarVal p.2 = true) :
    blockLines 0 (.vmap es) = es.map (fun p => scalarEntryLine 0 p.1 p.2) := by
  cases es with
  | nil => exact (hne rfl).elim
  | cons p rest =>
    have := blockLines_scalar_map p.1 p.2 rest (hs p (List.mem_cons_self _ _))
      (fun q hq => hs q (List.mem_cons_of_mem _ hq))
    simpa using this

/-- C4 amended witness: a two-entry mapping whose first value is null renders
as two lines, the null entry present as its bare key. -/
theorem C4_witness :
    blockLines 0 (.vmap [("a", .vnull), ("b", .vint 1)]) = ["a:", "b: 1"] := by
  have h := C4_amended_null_entries_rendered [("a", .vnull), ("b", .vint 1)]
    (by simp) (by intro p hp; fin_cases hp <;> rfl)
  exact h

/-- On every pair that as_dict yields, the source unit table agrees with the
abbreviation table of the claim. -/
theorem as_dict_unit_abbrev (t : TimePeriod) :
    ∀ p ∈ t.as_dict, (TIME_PERIOD_UNIT_MAP.lookup p.1).getD "" = claimAbbrev p.1 := by
  intro p hp
  simp only [TimePeriod.as_dict, List.mem_filterMap] at hp
  obtain ⟨a, ha, hmap⟩ := hp
  obtain ⟨w, hw, hpw⟩ : ∃ w, a.2 = some w ∧ (a.1, w) = p := by
    cases h2 : a.2 with
    | none => rw [h2] at hmap; simp at hmap
    | some w =>
      rw [h2] at hmap
      exact ⟨w, rfl, Option.some.inj hmap⟩
  subst hpw
  simp only [List.mem_cons, List.not_mem_nil, or_false] at ha
  rcases ha with h | h | h | h | h | h <;> rw [h] <;> rfl

/-- C9: a duration whose as_dict holds exactly one unit serializes to the
magnitude text followed by the unit abbreviation of the claim table; a
duration with two or more units set serializes as the explicit
unit-to-magnitude mapping. -/
theorem C9_duration_representation (t : TimePeriod) :
    (∀ (u : String) (v : Int), t.as_dict = [(u, v)] →
        represent_time_period t = .rstr (toString v ++ claimAbbrev u))
    ∧ (2 ≤ t.as_dict.length → represent_time_period t = .rmap t.as_dict) := by
  constructor
  · intro u v h
    have habbrev : (TIME_PERIOD_UNIT_MAP.lookup u).getD "" = claimAbbrev u := by
      simpa using as_dict_unit_abbrev t (u, v) (by simp [h])
    simp [represent_time_period, h, habbrev]
  · intro h2
    rcases hd : t.as_dict with _ | ⟨a, _ | ⟨b, rest⟩⟩
    · rw [hd] at h2; simp at h2
    · rw [hd] at h2; simp at h2
    · simp [represent_time_period, hd]

/-- C9 witness: seconds ten alone renders as the string with the s
abbreviation; seconds ten with minutes one renders as the explicit
mapping. -/
theorem C9_witness :
    represent_time_period { seconds := some 10 } = .rstr "10s"
    ∧ represent_time_period { seconds := some 10, minutes := some 1 }
        = .rmap [("seconds", 10), ("minutes", 1)] := by
  constructor
  · exact (C9_duration_representation { seconds := some 10 }).1 "seconds" 10 rfl
  · exact (C9_duration_representation { seconds := some 10, minutes := some 1 }).2
      (by decide)

/-- Lookup after a single ordered-dict assignment: the assigned key reads the
new value, every other key is untouched. -/
theorem odLookup_odSet : ∀ (acc : List (String × YVal)) (k0 : String) (v0 : YVal)
    (k : String),
    odLookup (odSet acc k0 v0) k = if k0 == k then some v0 else odLookup acc k := by
  intro acc
  induction acc with
  | nil =>
    intro k0 v0 k
    cases h : k0 == k <;> simp [odSet, odLookup, List.find?, h]
  | cons p rest ih =>
    intro k0 v0 k
    cases h1 : p.1 == k0 with
    | true =>
      have hpk : p.1 = k0 := by simpa using h1
      cases h2 : k0 == k with
      | true =>
        have hk : k0 = k := by simpa using h2
        simp [odSet, odLookup, List.find?, h1, h2, hpk, hk]
      | false =>
        have h3 : (p.1 == k) = false := by rw [hpk]; exact h2
        simp [odSet, odLookup, List.find?, h1, h2, h3]
    | false =>
      cases h2 : k0 == k with
      | true =>
        have hk : k0 = k := by simpa using h2
        have h3 : (p.1 == k) = false := by rw [← hk]; exact h1
        simp only [odSet, h1, Bool.false_eq_true, if_false, h2, if_true]
        simp only [odLookup, List.find?]
        rw [h3]
        have := ih k0 v0 k
        simp only [odLookup, h2, if_true] at this
        exact this
      | false =>
        simp only [odSet, h1, Bool.false_eq_true, if_false, h2]
        simp only [odLookup, List.find?]
        cases h3 : p.1 == k with
        | true => rfl
        | false =>
          have := ih k0 v0 k
          simp only [odLookup, h2, Bool.false_eq_true, if_false] at this
          exact this

/-- The initial value of the last-binding fold only matters when no binding
of the key exists. -/
theorem lastVal_foldl_init (k : String) : ∀ (ps : List (String × YVal))
    (i : Option YVal),
    ps.foldl (fun r p => if p.1 == k then some p.2 else r) i
      = match ps.foldl (fun r p => if p.1 == k then some p.2 else r) none with
        | some v => some v
        | none => i := by
  intro ps
  induction ps with
  | nil => intro i; rfl
  | cons p rest ih =>
    intro i
    simp only [List.foldl_cons]
    cases hp : p.1 == k with
    | false =>
      simp only [hp, Bool.false_eq_true, if_false]
      exact ih i
    | true =>
      simp only [hp, if_true]
      rw [ih (some p.2)]
      cases rest.foldl (fun r p => if p.1 == k then some p.2 else r) none <;> rfl

/-- Lookup in an ordered dict built by assigning a list of bindings over an
initial dict: the last binding of the key wins, and the initial dict only
answers when the key is never bound. -/
theorem odLookup_foldl_odSet (k : String) : ∀ (ps : List (String × YVal))
    (acc : List (String × YVal)),
    odLookup (ps.foldl (fun a p => odSet a p.1 p.2) acc) k
      = match lastVal ps k with
        | some v => some v
        | none => odLookup acc k := by
  intro ps
  induction ps with
  | nil => intro acc; rfl
  | cons p rest ih =>
    intro acc
    simp only [List.foldl_cons]
    rw [ih (odSet acc p.1 p.2)]
    rw [odLookup_odSet]
    have hcons : lastVal (p :: rest) k
        = match lastVal rest k with
          | some v => some v
          | none => if p.1 == k then some p.2 else none := by
      show (p :: rest).foldl (fun r q => if q.1 == k then some q.2 else r) none
          = match lastVal rest k with
            | some v => some v
            | none => if p.1 == k then some p.2 else none
      simp only [List.foldl_cons]
      exact lastVal_foldl_init k rest _
    rw [hcons]
    cases lastVal rest k with
    | some v => rfl
    | none => cases hp : p.1 == k <;> simp [hp]

/-- Folding ordered-dict updates over a list of entry lists assigns exactly
the flattened entries in order. -/
theorem foldl_odUpdate_flatten : ∀ (ds : List (List (String × YVal)))
    (acc : List (String × YVal)),
    ds.foldl odUpdate acc = (ds.flatten).foldl (fun a p => odSet a p.1 p.2) acc := by
  intro ds
  induction ds with
  | nil => intro acc; rfl
  | cons es rest ih =>
    intro acc
    simp only [List.foldl_cons, List.flatten_cons, List.foldl_append]
    exact ih _

/-- Merging a list of mappings by ordered-dict update realizes the
later-overwrites-earlier policy: looking a key up in the merged mapping
yields the value of the last binding of that key across the flattened
mappings in order. -/
theorem odLookup_merge_lastVal (ds : List (List (String × YVal))) (k : String) :
    odLookup (ds.foldl odUpdate []) k = lastVal ds.flatten k := by
  rw [foldl_odUpdate_flatten, odLookup_foldl_odSet]
  cases lastVal ds.flatten k <;> rfl

/-- The merge-named loop equals the claim-shaped pipeline: filter the secrets
file out of the scan list, load the remaining files in order aborting at the
first failure, keep the mapping results, and fold their entries into the
accumulator by ordered-dict update. -/
theorem mergeNamed_loop_spec (ctx : Ctx) :
    ∀ (fuel : Nat) (name : String) (files : List String)
      (acc : List (String × YVal)),
    run ctx fuel (.mergeNamed name files acc)
      = match specLoadSeq ctx fuel name
            (files.filter (fun g => !(basename g == SECRET_YAML))) with
        | .error er => .error er
        | .ok vs => .ok (.vmap ((vs.filterMap asMapEntries).foldl odUpdate acc)) := by
  intro fuel
  induction fuel with
  | zero => intro name files acc; rfl
  | succ fuel ih =>
    intro name files acc
    cases hdw : files.dropWhile (fun g => basename g == SECRET_YAML) with
    | nil =>
      have hf := secrets_filter_of_dropWhile_nil files hdw
      simp only [run, hdw, hf, specLoadSeq]
      rfl
    | cons f rest =>
      obtain ⟨hf, hQf⟩ := secrets_filter_of_dropWhile_cons files f rest hdw
      rw [hf]
      simp only [run, hdw, specLoadSeq]
      cases hl : run ctx fuel (.load name f) with
      | error er => rfl
      | ok v =>
        cases v with
        | vnull =>
          dsimp only
          rw [ih name rest acc]
          cases hs : specLoadSeq ctx fuel name
              (rest.filter (fun g => !(basename g == SECRET_YAML))) <;>
            simp [hs, asMapEntries]
        | vbool b =>
          dsimp only
          rw [ih name rest acc]
          cases hs : specLoadSeq ctx fuel name
              (rest.filter (fun g => !(basename g == SECRET_YAML))) <;>
            simp [hs, asMapEntries]
        | vint n =>
          dsimp only
          rw [ih name rest acc]
          cases hs : specLoadSeq ctx fuel name
              (rest.filter (fun g => !(basename g == SECRET_YAML))) <;>
            simp [hs, asMapEntries]
        | vstr s =>
          dsimp only
          rw [ih name rest acc]
          cases hs : specLoadSeq ctx fuel name
              (rest.filter (fun g => !(basename g == SECRET_YAML))) <;>
            simp [hs, asMapEntries]
        | vmap es =>
          dsimp only
          rw [ih name rest (odUpdate acc es)]
          cases hs : specLoadSeq ctx fuel name
              (rest.filter (fun g => !(basename g == SECRET_YAML))) <;>
            simp [hs, asMapEntries]
        | vseq xs =>
          dsimp only
          rw [ih name rest acc]
          cases hs : specLoadSeq ctx fuel name
              (rest.filter (fun g => !(basename g == SECRET_YAML))) <;>
            simp [hs, asMapEntries]
        | vlambda c =>
          dsimp only
          rw [ih name rest acc]
          cases hs : specLoadSeq ctx fuel name
              (rest.filter (fun g => !(basename g == SECRET_YAML))) <;>
            simp [hs, asMapEntries]

/-- C6: the merge-named directive loads every scanned file matching the yaml
pattern except the secrets file, in scan order with the first failure
aborting, merges the mapping results into one combined mapping and skips the
results that are not mappings (first conjunct, equating the handler with the
claim-shaped pipeline); and the merge is the later-overwrites-earlier policy:
a key reads as the value from the last scanned mapping that binds it (second
conjunct). -/
theorem C6_include_dir_merge_named (ctx : Ctx) (fuel : Nat) (name payload : String) :
    run ctx (fuel + 1) (.res name (.rtag .dIncludeDirMergeNamed payload))
      = mergeNamedSpec ctx fuel name
          (find_files ctx.fs (joinPath (dirname name) payload) "*.yaml")
    ∧ ∀ (ds : List (List (String × YVal))) (k : String),
        odLookup (ds.foldl odUpdate []) k = lastVal ds.flatten k := by
  constructor
  · show run ctx fuel
        (.mergeNamed name (find_files ctx.fs (joinPath (dirname name) payload) "*.yaml") [])
      = mergeNamedSpec ctx fuel name
          (find_files ctx.fs (joinPath (dirname name) payload) "*.yaml")
    rw [mergeNamed_loop_spec]
    rfl
  · exact fun ds k => odLookup_merge_lastVal ds k

/-- C1: the claim says a relative include path is resolved against the
directory of the file containing the directive, so the nested include of the
chain A/root.yaml -> sub/b.yaml -> c.yaml would load A/sub/c.yaml, whose
content here is the mapping binding k to 1.  The code instead keeps the
constructor name attribute at the first loaded file, resolves the nested
include against A, and returns the content of A/c.yaml (k bound to 2).  The
second conjunct shows that A/sub/c.yaml holds the other value, and the third
shows that a load whose name attribute really is the containing file would
produce that other value. -/
theorem C1_nested_include_resolved_against_first_loaded_file :
    (load_yaml ctxC1 10 none "A/root.yaml").2 = .ok (.vmap [("k", .vint 2)])
    ∧ (load_yaml ctxC1 10 none "A/sub/c.yaml").2 = .ok (.vmap [("k", .vint 1)])
    ∧ (load_yaml ctxC1 10 (some "A/sub/b.yaml") "A/sub/b.yaml").2
        = .ok (.vmap [("k", .vint 1)]) :=
  ⟨rfl, rfl, rfl⟩

/-- C2: the claim says no state persists between independent top-level loads.
The constructor name attribute is assigned only when unset, so after loading
A/first.yaml it stays at that path, and a later independent load of
B/second.yaml resolves its include against A instead of B: the sequential
second load returns the content of A/inc.yaml while the same load run alone
returns the content of B/inc.yaml, and the two results differ. -/
theorem C2_attribute_persists_across_root_loads :
    (load_yaml ctxC2 10 (load_yaml ctxC2 10 none "A/first.yaml").1 "B/second.yaml").2
      = .ok (.vmap [("v", .vint 1)])
    ∧ (load_yaml ctxC2 10 none "B/second.yaml").2 = .ok (.vmap [("v", .vint 2)])
    ∧ (load_yaml ctxC2 10 (load_yaml ctxC2 10 none "A/first.yaml").1 "B/second.yaml").2
      ≠ (load_yaml ctxC2 10 none "B/second.yaml").2 := by
  refine ⟨rfl, rfl, ?_⟩
  intro h
  have h2 : (Except.ok (YVal.vmap [("v", YVal.vint 1)]) : Except Err YVal)
      = .ok (.vmap [("v", .vint 2)]) := h
  simp at h2

/-- C5: loading a file whose text is syntactically malformed in the base
grammar fails with the wrapped parse error, and the message of that error
contains the offending path.  The base parser is external; its errors name
the input stream, which load_yaml opens on the offending file, as modelled in
parseErrMsg. -/
theorem C5_parse_error_message_contains_path (ctx : Ctx) (fuel : Nat)
    (st : Option String) (fname : String)
    (h : lookupFile ctx.fs fname = some .malformed) :
    (load_yaml ctx (fuel + 1) st fname).2 = .error (.e (parseErrMsg fname))
    ∧ fname.toList <:+: (parseErrMsg fname).toList := by
  constructor
  · simp [load_yaml, run, h]
  · refine ⟨("while parsing a block mapping in \"").toList,
      ("\", line 1, column 1: expected <block end>").toList, ?_⟩
    simp [parseErrMsg]

/-- C5 witness at a concrete malformed file. -/
theorem C5_witness :
    (load_yaml ctxC5 1 none "bad.yaml").2 = .error (.e (parseErrMsg "bad.yaml"))
    ∧ "bad.yaml".toList <:+: (parseErrMsg "bad.yaml").toList :=
  C5_parse_error_message_contains_path ctxC5 0 none "bad.yaml" rfl

/-- C7: resolving a secret directive under load context name loads the
secrets document of the directory of name afresh on that very call (the
hypothesis is about the current load of that file, and the handler keeps no
cache), returns the value bound to the key in the loaded mapping, and fails
with the UndefinedSecret error exactly when the key is absent. -/
theorem C7_secret_lookup_fresh_load (ctx : Ctx) (fuel : Nat) (name key : String)
    (m : List (String × YVal))
    (h : run ctx fuel (.load name (joinPath (dirname name) SECRET_YAML)) = .ok (.vmap m)) :
    run ctx (fuel + 1) (.res name (.rtag .dSecret key)) =
      (match odLookup m key with
       | some v => .ok v
       | none => .error (.e (undefinedSecretMsg key))) := by
  simp only [run, h]
  cases odLookup m key <;> rfl

/-- C7 witness: with A/secrets.yaml binding foo to bar, resolving foo from a
file of A yields bar and resolving a missing key fails with the
UndefinedSecret error. -/
theorem C7_witness :
    run ctxC7 11 (.res "A/config.yaml" (.rtag .dSecret "foo")) = .ok (.vstr "bar")
    ∧ run ctxC7 11 (.res "A/config.yaml" (.rtag .dSecret "baz"))
        = .error (.e (undefinedSecretMsg "baz")) :=
  ⟨C7_secret_lookup_fresh_load ctxC7 10 "A/config.yaml" "foo" [("foo", .vstr "bar")] rfl,
   C7_secret_lookup_fresh_load ctxC7 10 "A/config.yaml" "baz" [("foo", .vstr "bar")] rfl⟩

/-- C8: a document that the base grammar reads as the null value, which is
what an empty or whitespace-only document parses to, loads as the empty
ordered mapping and never as null, by the falsy-or-empty-mapping coercion in
load_yaml. -/
theorem C8_empty_document_loads_empty_mapping (ctx : Ctx) (fuel : Nat)
    (st : Option String) (fname : String)
    (h : lookupFile ctx.fs fname = some (.parsed .rnull)) :
    (load_yaml ctx (fuel + 2) st fname).2 = .ok (.vmap []) := by
  simp [load_yaml, run, h, truthy]

/-- C8 witness at a concrete empty document. -/
theorem C8_witness : (load_yaml ctxC8 2 none "empty.yaml").2 = .ok (.vmap []) :=
  C8_empty_document_loads_empty_mapping ctxC8 0 none "empty.yaml" rfl

/-- C10: the empty-mapping coercion of load_yaml applies to every falsy
resolved document value, not only to null: whenever the resolved top-level
value of the file is falsy in the host language, the load returns the empty
ordered mapping. -/
theorem C10_falsy_document_loads_empty_mapping (ctx : Ctx) (fuel : Nat)
    (st : Option String) (fname : String) (raw : RawNode) (v : YVal)
    (h1 : lookupFile ctx.fs fname = some (.parsed raw))
    (h2 : run ctx fuel (.res (stName st fname) raw) = .ok v)
    (h3 : truthy v = false) :
    (load_yaml ctx (fuel + 1) st fname).2 = .ok (.vmap []) := by
  simp [load_yaml, run, h1, h2, h3]

/-- C10 witness: a document holding only the scalar false and one holding
only the scalar zero both load as the empty mapping. -/
theorem C10_witness :
    (load_yaml ctxC10 2 none "f.yaml").2 = .ok (.vmap [])
    ∧ (load_yaml ctxC10 2 none "z.yaml").2 = .ok (.vmap []) :=
  ⟨C10_falsy_document_loads_empty_mapping ctxC10 1 none "f.yaml" (.rbool false)
      (.vbool false) rfl rfl rfl,
   C10_falsy_document_loads_empty_mapping ctxC10 1 none "z.yaml" (.rint 0)
      (.vint 0) rfl rfl rfl⟩

end Esphome
